import Mathlib

/-!
Verification of the `apg` repository core: the predicate compiler and
identifier utilities of `adbc/sql.py`, the primary-key resolution of
`adbc/sql.py` and `adbc/table.py`, and the hierarchical aggregation of
`apg/store.py`, shallowly embedded in Lean.

Python dynamic values are embedded as the inductive type `PyVal`; the
in-place mutation of the shared `args` parameter list is embedded as
explicit state passing (every compilation function returns the new list,
also on the error path, mirroring the fact that a Python exception leaves
the already-appended elements in place).
-/

namespace Apg

/-- Failure outcomes of the embedded Python code.  `invalidIdentifier`
is the spec's `InvalidIdentifier` (the source raises a bare `Exception`
with an "invalid identifier name" message), `unknownOperator` is the
spec's `UnknownOperatorError` (a `ValueError` in the source), and
`invalidFilter` is the spec's `InvalidFilterError` (an `assert` on a
non-empty operator mapping in the source).  `notADict`, `notIterable`
and `noReplace` stand for the `AttributeError`/`TypeError` a Python
run would raise on ill-shaped input, `indexError` for `clause[0]` on an
empty list, and `outOfFuel` marks exhaustion of the recursion bound of
the embedding (shown unreachable for the bound chosen by
`where_clause`). -/
inductive Err where
  | invalidIdentifier (ident : String)
  | unknownOperator (op : String)
  | invalidFilter
  | notADict
  | notIterable
  | noReplace
  | indexError
  | outOfFuel
deriving DecidableEq

/-- An untyped Python value as it appears in filter documents and in the
shared parameter list: strings, integers, booleans, `None`, sequences
(`list`/`tuple`) and string-keyed mappings (`dict`, embedded as an
ordered association list, matching Python's insertion-ordered dicts). -/
inductive PyVal where
  | str (s : String)
  | int (n : Int)
  | bool (b : Bool)
  | none
  | list (xs : List PyVal)
  | dict (kvs : List (String × PyVal))

/-- Python truthiness (`bool(v)`): `False`, `None`, `0`, and empty
strings/sequences/mappings are falsy, everything else truthy. -/
def truthy : PyVal → Bool
  | PyVal.str s => !s.isEmpty
  | PyVal.int n => n != 0
  | PyVal.bool b => b
  | PyVal.none => false
  | PyVal.list xs => !xs.isEmpty
  | PyVal.dict kvs => !kvs.isEmpty

/-- `d.get(key)` on an embedded dict: the value at the first matching
key, if any. -/
def pyGet : List (String × PyVal) → String → Option PyVal
  | [], _ => Option.none
  | (k, v) :: rest, key => if k == key then Option.some v else pyGet rest key

/-- The opening-brace character, kept out of string literals. -/
def lbrace : Char := Char.ofNat 123

/-- The closing-brace character, kept out of string literals. -/
def rbrace : Char := Char.ofNat 125

/-- A parsed template segment: literal text, or a named placeholder
(a name wrapped in double braces with inner spaces, as written in the
`OPERATORS` registry of `adbc/sql.py`). -/
inductive Seg where
  | lit (s : String)
  | var (name : String)

/-- Scanner behind `parseTemplate`.  The `Nat` argument is a recursion
bound, always instantiated with the length of the scanned text, which a
scan can never exhaust because every step consumes at least one
character. -/
def parseSegsGo : Nat → List Char → List Char → List Seg
  | _, acc, [] => if acc.isEmpty then [] else [Seg.lit ⟨acc.reverse⟩]
  | 0, acc, rest => [Seg.lit ⟨acc.reverse ++ rest⟩]
  | Nat.succ f, acc, c :: cs =>
    if [lbrace, lbrace, ' '].isPrefixOf (c :: cs) then
      let rest := cs.drop 2
      let name := rest.takeWhile (fun ch => !(ch == ' ' || ch == rbrace))
      let rest2 := rest.drop name.length
      if [' ', rbrace, rbrace].isPrefixOf rest2 then
        (if acc.isEmpty then [] else [Seg.lit ⟨acc.reverse⟩])
          ++ Seg.var ⟨name⟩ :: parseSegsGo f [] (rest2.drop 3)
      else parseSegsGo f (c :: acc) cs
    else parseSegsGo f (c :: acc) cs

/-- Modelled from the spec: the template syntax of the missing
`adbc/template.py`, as pinned down by the template strings stored in the
`OPERATORS` registry of `adbc/sql.py`: a template is literal text
interleaved with placeholders, each written as a name wrapped in double
braces with one space on each side. -/
def parseTemplate (t : String) : List Seg :=
  parseSegsGo t.data.length [] t.data

/-- Modelled from the spec: `resolve_template` of the missing
`adbc/template.py` replaces every placeholder with the context value
bound to its name (spec 4.2 step 3: "resolve a SQL template"). -/
def resolve_template (t : String) (ctx : List (String × String)) : String :=
  String.join ((parseTemplate t).map (fun seg =>
    match seg with
    | Seg.lit s => s
    | Seg.var n => (ctx.lookup n).getD ""))

/-- Modelled from the spec: `get_context_variables` of the missing
`adbc/template.py` lists the placeholder names a template needs
(spec 4.2 step 3: "determine which template placeholders are needed"). -/
def get_context_variables (t : String) : List String :=
  (parseTemplate t).filterMap (fun seg =>
    match seg with
    | Seg.var n => Option.some n
    | _ => Option.none)

/-- Python's substring containment test `pat in s`. -/
def containsSub (pat : List Char) : List Char → Bool
  | [] => pat.isEmpty
  | c :: cs => pat.isPrefixOf (c :: cs) || containsSub pat cs

/-- The pattern-matching test of `where_clause`:
`"LIKE" in template.upper()`. -/
def template_has_like (t : String) : Bool :=
  containsSub "LIKE".data (t.data.map Char.toUpper)

/-- Scanner behind `replaceAll`; the `Nat` argument is a recursion bound
instantiated with the length of the scanned text (sufficient because
every step consumes at least one character). -/
def replaceAllGo (pat rep : List Char) : Nat → List Char → List Char
  | _, [] => []
  | 0, s => s
  | Nat.succ f, c :: cs =>
    if !pat.isEmpty && pat.isPrefixOf (c :: cs) then
      rep ++ replaceAllGo pat rep f ((c :: cs).drop pat.length)
    else c :: replaceAllGo pat rep f cs

/-- Python's `str.replace`: replace every non-overlapping occurrence of
`pat`, scanning left to right. -/
def replaceAll (pat rep s : List Char) : List Char :=
  replaceAllGo pat rep s.length s

/-- `escape_like` (`adbc/sql.py` lines 135-139): escape `\`, `%` and `_`
in a literal before it is used in a `LIKE`/`ILIKE` pattern, replacing in
that order. -/
def escape_like (like : String) : String :=
  let l1 := replaceAll ['\\'] ['\\', '\\'] like.data
  let l2 := replaceAll ['%'] ['\\', '%'] l1
  let l3 := replaceAll ['_'] ['\\', '_'] l2
  ⟨l3⟩

/-- `params_list` (`adbc/sql.py` lines 142-143): the placeholder strings
`$start, $start+1, ...` for `num` fresh parameters. -/
def params_list (start num : Nat) : List String :=
  (List.range num).map (fun i => "$" ++ toString (start + i))

/-- `parens` (`adbc/sql.py` lines 91-92). -/
def parens (value : String) : String := "(" ++ value ++ ")"

/-- `quote` (`adbc/sql.py` lines 47-48): wrap an identifier in double
quotes verbatim. -/
def quote (ident : String) : String := "\"" ++ ident ++ "\""

/-- The `OPERATORS` registry of `adbc/sql.py` (lines 95-132), with every
alias assignment applied: operator name to SQL template. -/
def OPERATORS : String → Option String
  | "equal" | "eq" | "equals" | "=" =>
    Option.some "\"\x7b\x7b field \x7d\x7d\" = \x7b\x7b value \x7d\x7d"
  | "less" | "less.than" | "<" =>
    Option.some "\"\x7b\x7b field \x7d\x7d\" < \x7b\x7b value \x7d\x7d"
  | "at.most" | "less.equal" | "<=" =>
    Option.some "\"\x7b\x7b field \x7d\x7d\" <= \x7b\x7b value \x7d\x7d"
  | "greater" | "greater.than" | ">" =>
    Option.some "\"\x7b\x7b field \x7d\x7d\" > \x7b\x7b value \x7d\x7d"
  | "at.least" | "greater.equal" | ">=" =>
    Option.some "\"\x7b\x7b field \x7d\x7d\" >= \x7b\x7b value \x7d\x7d"
  | "like" | "~" =>
    Option.some "\"\x7b\x7b field \x7d\x7d\" LIKE \x7b\x7b value \x7d\x7d"
  | "ilike" | "~~" =>
    Option.some "\"\x7b\x7b field \x7d\x7d\" ILIKE \x7b\x7b value \x7d\x7d"
  | "not.equal" | "ne" | "!=" | "<>" =>
    Option.some "\"\x7b\x7b field \x7d\x7d\" != \x7b\x7b value \x7d\x7d"
  | "is.null" =>
    Option.some "\"\x7b\x7b field \x7d\x7d\" IS \x7b\x7b not \x7d\x7dNULL"
  | "starts.with" =>
    Option.some "\"\x7b\x7b field \x7d\x7d\" LIKE \x7b\x7b value \x7d\x7d"
  | "istarts.with" =>
    Option.some "\"\x7b\x7b field \x7d\x7d\" ILIKE \x7b\x7b value \x7d\x7d"
  | "iends.with" =>
    Option.some "\"\x7b\x7b field \x7d\x7d\" ILIKE \x7b\x7b value \x7d\x7d"
  | "contains" =>
    Option.some "\"\x7b\x7b field \x7d\x7d\" LIKE \x7b\x7b value \x7d\x7d"
  | "icontains" =>
    Option.some "\"\x7b\x7b field \x7d\x7d\" ILIKE \x7b\x7b value \x7d\x7d"
  | "in" =>
    Option.some "\"\x7b\x7b field \x7d\x7d\" IN \x7b\x7b value \x7d\x7d"
  | _ => Option.none

/-- The `OPERATOR_TRANSLATE` registry of `adbc/sql.py` (lines 115-122):
wildcard-adding translation templates for the `LIKE` family. -/
def OPERATOR_TRANSLATE : String → Option String
  | "starts.with" | "istarts.with" => Option.some "\x7b\x7b value \x7d\x7d%"
  | "ends.with" | "iends.with" => Option.some "%\x7b\x7b value \x7d\x7d"
  | "contains" | "icontains" => Option.some "%\x7b\x7b value \x7d\x7d%"
  | _ => Option.none

/-- One iteration of the inner operator loop of `where_clause`
(`adbc/sql.py` lines 168-203): look up the operator's template, escape
the value if the template is a `LIKE` family member, apply the
operator's translation rule, compute the `not` context entry, bind the
value into the shared parameter list, and resolve the template.  The
`value` context entry is added only when the template mentions it; the
source always stores the raw value there first, but that entry is
observable only through templates that do mention `value`, in which case
the binding step has overwritten it with the placeholder text. -/
def compile_op (field op : String) (value : PyVal) (args : List PyVal) :
    Except Err String × List PyVal :=
  match OPERATORS op with
  | Option.none => (Except.error (Err.unknownOperator op), args)
  | Option.some template =>
    let needs := get_context_variables template
    match (if template_has_like template then
             match value with
             | PyVal.str s => Except.ok (PyVal.str (escape_like s))
             | _ => Except.error Err.noReplace
           else Except.ok value : Except Err PyVal) with
    | Except.error e => (Except.error e, args)
    | Except.ok value1 =>
      let value2 :=
        match OPERATOR_TRANSLATE op, value1 with
        | Option.some tr, PyVal.str s =>
          PyVal.str (resolve_template tr [("value", s)])
        | _, _ => value1
      let notCtx : List (String × String) :=
        if needs.contains "not" then
          [("not", if truthy value2 then "" else "NOT ")]
        else []
      let binding : List (String × String) × List PyVal :=
        if needs.contains "value" then
          match value2 with
          | PyVal.list vs =>
            ([("value",
               parens (String.intercalate ", "
                 (params_list (args.length + 1) vs.length)))],
             args ++ vs)
          | v => ([("value", "$" ++ toString (args.length + 1))], args ++ [v])
        else ([], args)
      (Except.ok (resolve_template template
         ([("field", field)] ++ notCtx ++ binding.1)), binding.2)

/-- The operator loop of `where_clause`: compile each operator-value
pair of one field in order, threading the shared parameter list. -/
def compile_ops (field : String) (ops : List (String × PyVal))
    (args : List PyVal) : Except Err (List String) × List PyVal :=
  match ops with
  | [] => (Except.ok [], args)
  | (op, v) :: rest =>
    match compile_op field op v args with
    | (Except.error e, args1) => (Except.error e, args1)
    | (Except.ok c, args1) =>
      match compile_ops field rest args1 with
      | (Except.error e, args2) => (Except.error e, args2)
      | (Except.ok cs, args2) => (Except.ok (c :: cs), args2)

/-- One iteration of the field loop of `where_clause` (`adbc/sql.py`
lines 159-207): a non-mapping value is rewrapped as an implicit
`equals`, an empty operator mapping trips the `assert`, and multiple
operator clauses for one field are parenthesized and joined with
`AND`. -/
def compile_field (field : String) (ov : PyVal) (args : List PyVal) :
    Except Err String × List PyVal :=
  match (match ov with
         | PyVal.dict m =>
           if m.isEmpty then Except.error Err.invalidFilter else Except.ok m
         | v => Except.ok [("equals", v)] : Except Err (List (String × PyVal))) with
  | Except.error e => (Except.error e, args)
  | Except.ok ops =>
    match compile_ops field ops args with
    | (Except.error e, args1) => (Except.error e, args1)
    | (Except.ok clause, args1) =>
      match clause with
      | [] => (Except.error Err.indexError, args1)
      | [c] => (Except.ok c, args1)
      | cs => (Except.ok (String.intercalate " AND " (cs.map parens)), args1)

/-- The field loop of `where_clause`: compile every field of the
document in order, threading the shared parameter list. -/
def compile_fields (kvs : List (String × PyVal)) (args : List PyVal) :
    Except Err (List String) × List PyVal :=
  match kvs with
  | [] => (Except.ok [], args)
  | (field, ov) :: rest =>
    match compile_field field ov args with
    | (Except.error e, args1) => (Except.error e, args1)
    | (Except.ok c, args1) =>
      match compile_fields rest args1 with
      | (Except.error e, args2) => (Except.error e, args2)
      | (Except.ok cs, args2) => (Except.ok (c :: cs), args2)

/-- Compile a list of sub-documents (the payload of `.and`/`.or`) with
the recursive compiler `rec`, threading the shared parameter list and
stopping at the first error, like the source's list comprehension. -/
def threadList (rec : PyVal → List PyVal → Except Err String × List PyVal) :
    List PyVal → List PyVal → Except Err (List String) × List PyVal
  | [], args => (Except.ok [], args)
  | a :: rest, args =>
    match rec a args with
    | (Except.error e, args1) => (Except.error e, args1)
    | (Except.ok s, args1) =>
      match threadList rec rest args1 with
      | (Except.error e, args2) => (Except.error e, args2)
      | (Except.ok ss, args2) => (Except.ok (s :: ss), args2)

/-- One layer of `where_clause` (`adbc/sql.py` lines 146-215),
parameterized by the compiler `rec` used for nested sub-documents: a
truthy `.and`/`.or` payload is compiled element-wise, parenthesized and
joined; a truthy `.not` payload is compiled and negated; otherwise the
plain field keys are compiled and joined (parenthesized only when there
are at least two clauses), the empty document yielding the empty
string.  A non-dict document fails like Python's `where.get` would. -/
def whereStep (rec : PyVal → List PyVal → Except Err String × List PyVal)
    (w : PyVal) (args : List PyVal) : Except Err String × List PyVal :=
  match w with
  | PyVal.dict kvs =>
    if truthy ((pyGet kvs ".and").getD PyVal.none) then
      match (pyGet kvs ".and").getD PyVal.none with
      | PyVal.list l =>
        match threadList rec l args with
        | (Except.error e, args1) => (Except.error e, args1)
        | (Except.ok ss, args1) =>
          (Except.ok (String.intercalate " AND " (ss.map parens)), args1)
      | _ => (Except.error Err.notIterable, args)
    else if truthy ((pyGet kvs ".or").getD PyVal.none) then
      match (pyGet kvs ".or").getD PyVal.none with
      | PyVal.list l =>
        match threadList rec l args with
        | (Except.error e, args1) => (Except.error e, args1)
        | (Except.ok ss, args1) =>
          (Except.ok (String.intercalate " OR " (ss.map parens)), args1)
      | _ => (Except.error Err.notIterable, args)
    else if truthy ((pyGet kvs ".not").getD PyVal.none) then
      match rec ((pyGet kvs ".not").getD PyVal.none) args with
      | (Except.error e, args1) => (Except.error e, args1)
      | (Except.ok s, args1) => (Except.ok ("NOT " ++ parens s), args1)
    else
      match compile_fields kvs args with
      | (Except.error e, args1) => (Except.error e, args1)
      | (Except.ok clauses, args1) =>
        match clauses with
        | [] => (Except.ok "", args1)
        | [c] => (Except.ok c, args1)
        | cs =>
          (Except.ok (String.intercalate " AND " (cs.map parens)), args1)
  | _ => (Except.error Err.notADict, args)

mutual

/-- Structural size of an embedded Python value, used as the recursion
bound of `where_clause`. -/
def pySize : PyVal → Nat
  | PyVal.dict kvs => 1 + pySizePairs kvs
  | PyVal.list xs => 1 + pySizeList xs
  | _ => 1

/-- Structural size of a list of embedded Python values. -/
def pySizeList : List PyVal → Nat
  | [] => 0
  | a :: rest => 1 + pySize a + pySizeList rest

/-- Structural size of the entries of an embedded Python dict. -/
def pySizePairs : List (String × PyVal) → Nat
  | [] => 0
  | (_, v) :: rest => 1 + pySize v + pySizePairs rest

end

/-- The fueled recursive compiler: each fuel step unlocks one layer of
combinator nesting. -/
def whereGo : Nat → PyVal → List PyVal → Except Err String × List PyVal
  | 0 => fun _ args => (Except.error Err.outOfFuel, args)
  | Nat.succ f => whereStep (whereGo f)

/-- `where_clause` (`adbc/sql.py` lines 146-215): compile a filter
document to a SQL fragment, appending bound parameters to `args`; the
returned list is the final state of the source's mutated `args`.  The
recursion bound `pySize w` strictly exceeds the combinator nesting
depth of `w`, so the `outOfFuel` branch is unreachable (see
`where_clause_no_fuel_error`). -/
def where_clause (w : PyVal) (args : List PyVal) :
    Except Err String × List PyVal :=
  whereStep (whereGo (pySize w)) w args

/-- Membership in the character class `[-_a-zA-Z0-9$]` of
`IDENTIFIER_REGEX`. -/
def isIdentTail (c : Char) : Bool :=
  c == '-' || c == '_' || c.isAlpha || c.isDigit || c == '$'

/-- Whether a character list matches `[a-zA-Z][-_a-zA-Z0-9$]*`
exactly. -/
def identCore (l : List Char) : Bool :=
  match l with
  | [] => false
  | c :: cs => c.isAlpha && cs.all isIdentTail

/-- `IDENTIFIER_REGEX.match` (`adbc/sql.py` line 6) as a Boolean test:
the pattern `^[a-zA-Z][-_a-zA-Z0-9$]*$` under Python `re` semantics,
where the `$` anchor matches at the end of the string or just before a
single newline at the end of the string, so a grammar-matching core
followed by one trailing newline is also accepted. -/
def IDENTIFIER_REGEX (s : String) : Bool :=
  identCore s.data
    || (s.data.getLast? == Option.some '\n' && identCore s.data.dropLast)

/-- `check_identifier` (`adbc/sql.py` lines 68-71): return the
identifier unchanged if the regex matches, fail otherwise. -/
def check_identifier (ident : String) : Except Err String :=
  if IDENTIFIER_REGEX ident then Except.ok ident
  else Except.error (Err.invalidIdentifier ident)

/-- ASCII whitespace, the characters Python's `str.isspace` accepts in
the ASCII range. -/
def pyIsSpace (c : Char) : Bool :=
  c == ' ' || c == '\t' || c == '\n' || c == '\r' || c == '\x0b' || c == '\x0c'

/-- SQL metacharacters in the sense of the spec's testable property:
single quote, double quote, semicolon. -/
def sqlMetaChar (c : Char) : Bool :=
  c == '"' || c == ';' || c == Char.ofNat 39

/-- An index descriptor as consumed by `get_pks` and `Table.__init__`:
name, primary flag, columns and keys. -/
structure IndexDesc where
  name : String
  primary : Bool
  columns : List String
  keys : List String

/-- A constraint descriptor: name, type (`"p"` marks a primary-key
constraint), columns, and the name of the backing index. -/
structure ConstraintDesc where
  name : String
  type : String
  columns : List String
  index_name : String

/-- A column descriptor; only the name is relevant to primary-key
resolution. -/
structure ColumnDesc where
  name : String

/-- Modelled from the spec: `get_first` of the missing `adbc/utils.py`
returns the given projection of the first list item satisfying the
predicate, or None (pinned down by spec 3's primary-key resolution
order). -/
def get_first {α β : Type} (l : List α) (pred : α → Bool) (key : α → β) :
    Option β :=
  (l.find? pred).map key

/-- The heterogeneous result of `get_pks`: either the `columns`
projection of an index or constraint, or the fallback full
column-descriptor list. -/
inductive Pks where
  | fromMeta (cols : List String)
  | fullRow (cols : List ColumnDesc)

/-- Python truthiness of an optional column list (`None` and `[]` are
falsy). -/
def optListTruthy : Option (List String) → Bool
  | Option.none => false
  | Option.some cs => !cs.isEmpty

/-- `get_pks` (`adbc/sql.py` lines 16-28): columns of the first primary
index if truthy, else columns of the first type-`"p"` constraint if
truthy, else the full column list. -/
def get_pks (indexes : List IndexDesc) (constraints : List ConstraintDesc)
    (columns : List ColumnDesc) : Pks :=
  let pks1 : Option (List String) :=
    if indexes.isEmpty then Option.none
    else get_first indexes (fun i => i.primary) (fun i => i.columns)
  let pks2 : Option (List String) :=
    if !optListTruthy pks1 && !constraints.isEmpty then
      get_first constraints (fun c => c.type == "p") (fun c => c.columns)
    else pks1
  if !optListTruthy pks2 then Pks.fullRow columns
  else Pks.fromMeta (pks2.getD [])

/-- Insert into a name-sorted list, after existing equal keys, matching
the stability of Python's `sorted`. -/
def insertByKey {α : Type} (key : α → String) (x : α) : List α → List α
  | [] => [x]
  | y :: ys => if key x < key y then x :: y :: ys else y :: insertByKey key x ys

/-- Stable sort by a string key, as `sorted(l, key=...)` in
`Table.__init__`. -/
def sortByKey {α : Type} (key : α → String) (l : List α) : List α :=
  l.foldl (fun acc x => insertByKey key x acc) []

/-- `get_by_name` (`adbc/table.py` lines 6-11): the given projection of
the first item with the given name, or None. -/
def get_by_name {β : Type} (l : List IndexDesc) (nm : String)
    (key : IndexDesc → β) : Option β :=
  (l.find? (fun x => x.name == nm)).map key

/-- The `self.pks` computation of `Table.__init__` (`adbc/table.py`
lines 35-42): sort constraints and indexes by name, take the first
type-`"p"` constraint, and look up the `keys` of its named index; None
when there is no such constraint (or its index is absent).  Note this
never consults primary-flagged indexes and never falls back to the
column list: it does not call `get_pks`. -/
def Table_pks (constraints : List ConstraintDesc) (indexes : List IndexDesc) :
    Option (List String) :=
  let constraintsS := sortByKey (fun c => c.name) constraints
  let indexesS := sortByKey (fun i => i.name) indexes
  match constraintsS.find? (fun c => c.type == "p") with
  | Option.some c => get_by_name indexesS c.index_name (fun i => i.keys)
  | Option.none => Option.none

/-- A child of a composite node, carrying the name and the two hashes
the child's own `get_data_hash`/`get_schema_hash` calls return. -/
structure ChildNode where
  name : String
  data_hash : String
  schema_hash : String

/-- Scanner behind `pyFormat`; the `Nat` argument is a recursion bound
instantiated with the length of the scanned text. -/
def pyFormatGo : Nat → List Char → List String → List Char
  | _, [], _ => []
  | 0, l, _ => l
  | Nat.succ f, c :: cs, args =>
    if [lbrace, rbrace].isPrefixOf (c :: cs) then
      (args.headD "").data ++ pyFormatGo f (cs.drop 1) (args.drop 1)
    else c :: pyFormatGo f cs args

/-- Python's `str.format` restricted to auto-numbered empty replacement
fields: each occurrence of a brace pair consumes the next positional
argument; a template with no brace pair returns itself and drops every
argument — which is exactly what `"-".format(hash, name)` in
`apg/store.py` does. -/
def pyFormat (t : String) (args : List String) : String :=
  ⟨pyFormatGo t.data.length t.data args⟩

/-- The exact string `WithChildren.get_data_hash` (`apg/store.py` lines
46-56) passes to `md5`: the comma-join over the children of
`"-".format(child_data_hash, child_name)`.  Because the format template
`"-"` contains no replacement field, each element evaluates to `"-"`
and both arguments are dropped. -/
def get_data_hash_md5_input (children : List ChildNode) : String :=
  String.intercalate ","
    (children.map (fun c => pyFormat "-" [c.data_hash, c.name]))

/-- The exact string `WithChildren.get_schema_hash` (`apg/store.py`
lines 58-68) passes to `md5`; same shape as the data-hash input. -/
def get_schema_hash_md5_input (children : List ChildNode) : String :=
  String.intercalate ","
    (children.map (fun c => pyFormat "-" [c.schema_hash, c.name]))

/-- A node of the store hierarchy for counting: a leaf's count is the
scalar its row-count query returns (the query execution itself is the
out-of-scope capability), a composite's count is computed by
`WithChildren.get_count`. -/
inductive CNode where
  | leaf (name : String) (count : Int)
  | comp (name : String) (children : List CNode)

mutual

/-- `get_count`: a leaf answers its stored count;
`WithChildren.get_count` (`apg/store.py` lines 38-44) sums the
children's counts. -/
def get_count : CNode → Int
  | CNode.leaf _ k => k
  | CNode.comp _ cs => get_count_list cs

/-- The `sum([await c for c in s])` over a composite's children. -/
def get_count_list : List CNode → Int
  | [] => 0
  | c :: rest => get_count c + get_count_list rest

end

mutual

/-- The counts of all leaves below a node, left to right. -/
def leafCounts : CNode → List Int
  | CNode.leaf _ k => [k]
  | CNode.comp _ cs => leafCountsList cs

/-- The counts of all leaves below a list of nodes. -/
def leafCountsList : List CNode → List Int
  | [] => []
  | c :: rest => leafCounts c ++ leafCountsList rest

end

/-! ## Claim theorems -/

/-- Claim C5: `where_clause` binds values by appending to the shared
parameter list: a sequence value has all its elements appended and is
substituted as a parenthesized, comma-joined list of the new
placeholders; any other value is appended as a single element and
substituted as one placeholder; with `args` pre-seeded to length `n`
the first new placeholder is `$(n+1)`, each placeholder number being
the length of `args` right after the corresponding append.  Witnessed
for the `in` operator with an arbitrary sequence, for a scalar bind,
and for the spec's concrete `IN` example. -/
theorem where_clause_binds_by_appending :
    (∀ (args : List PyVal) (vs : List PyVal),
      where_clause (PyVal.dict [("ids", PyVal.dict [("in", PyVal.list vs)])]) args
        = (Except.ok ("\"ids\" IN " ++ parens (String.intercalate ", "
            (params_list (args.length + 1) vs.length))), args ++ vs))
    ∧ (∀ (args : List PyVal) (k : Int),
      where_clause (PyVal.dict [("age", PyVal.dict [("greater", PyVal.int k)])]) args
        = (Except.ok ("\"age\" > $" ++ toString (args.length + 1)),
           args ++ [PyVal.int k]))
    ∧ where_clause (PyVal.dict [("ids", PyVal.dict
        [("in", PyVal.list [PyVal.int 1, PyVal.int 2, PyVal.int 3])])]) []
        = (Except.ok "\"ids\" IN ($1, $2, $3)",
           [PyVal.int 1, PyVal.int 2, PyVal.int 3]) :=
  ⟨fun _ _ => rfl, fun _ _ => rfl, rfl⟩

/-- Claim C6: for the pattern-matching (`LIKE`/`ILIKE` family)
operators, `where_clause` escapes `\`, `%` and `_` in the literal value
before the operator's translation rule adds any wildcard: the bound
parameter is the translation template applied to `escape_like` of the
input.  Witnessed for `starts.with` (escaped value then `%`),
`contains` (`%` around the escaped value), plain `like` (escaped value,
no wildcard), the spec's `jo` example, and the spec's `jo%_` example
whose `%` and `_` are escaped before the trailing `%` is appended. -/
theorem where_clause_escapes_before_wildcards :
    (∀ (v : String) (args : List PyVal),
      where_clause (PyVal.dict [("name", PyVal.dict
          [("starts.with", PyVal.str v)])]) args
        = (Except.ok ("\"name\" LIKE $" ++ toString (args.length + 1)),
           args ++ [PyVal.str (escape_like v ++ "%")]))
    ∧ (∀ (v : String) (args : List PyVal),
      where_clause (PyVal.dict [("body", PyVal.dict
          [("contains", PyVal.str v)])]) args
        = (Except.ok ("\"body\" LIKE $" ++ toString (args.length + 1)),
           args ++ [PyVal.str ("%" ++ escape_like v ++ "%")]))
    ∧ (∀ (v : String) (args : List PyVal),
      where_clause (PyVal.dict [("name", PyVal.dict
          [("like", PyVal.str v)])]) args
        = (Except.ok ("\"name\" LIKE $" ++ toString (args.length + 1)),
           args ++ [PyVal.str (escape_like v)]))
    ∧ where_clause (PyVal.dict [("name", PyVal.dict
        [("starts.with", PyVal.str "jo")])]) []
        = (Except.ok "\"name\" LIKE $1", [PyVal.str "jo%"])
    ∧ escape_like "jo%_" = "jo\\%\\_"
    ∧ where_clause (PyVal.dict [("name", PyVal.dict
        [("starts.with", PyVal.str "jo%_")])]) []
        = (Except.ok "\"name\" LIKE $1", [PyVal.str "jo\\%\\_%"]) :=
  ⟨fun _ _ => rfl, fun _ _ => rfl, fun _ _ => rfl, rfl, rfl, rfl⟩

/-- Claim C7: for an `is.null` constraint the template's `not`
placeholder is the string `"NOT "` when the payload value is falsy and
the empty string when it is truthy, and nothing is appended to the
parameter list; so `True` yields `"x" IS NULL` and `False` yields
`"x" IS NOT NULL`. -/
theorem where_clause_is_null_not_placeholder :
    (∀ (v : PyVal) (args : List PyVal),
      where_clause (PyVal.dict [("x", PyVal.dict [("is.null", v)])]) args
        = (Except.ok ("\"x\" IS " ++ (if truthy v then "" else "NOT ")
            ++ "NULL"), args))
    ∧ where_clause (PyVal.dict [("x", PyVal.dict
        [("is.null", PyVal.bool true)])]) []
        = (Except.ok "\"x\" IS NULL", [])
    ∧ where_clause (PyVal.dict [("x", PyVal.dict
        [("is.null", PyVal.bool false)])]) []
        = (Except.ok "\"x\" IS NOT NULL", []) :=
  ⟨fun _ _ => rfl, rfl, rfl⟩

/-- Claim C1 (code bug): `where_clause` performs no identifier check
at all: for the field name `"bad name"`, which fails
`IDENTIFIER_REGEX` (and which `check_identifier` would reject), it
succeeds and interpolates the invalid name into the returned SQL
fragment instead of failing. -/
theorem where_clause_interpolates_invalid_identifier :
    IDENTIFIER_REGEX "bad name" = false
    ∧ check_identifier "bad name"
        = Except.error (Err.invalidIdentifier "bad name")
    ∧ where_clause (PyVal.dict [("bad name", PyVal.int 5)]) []
        = (Except.ok "\"bad name\" = $1", [PyVal.int 5]) :=
  ⟨rfl, rfl, rfl⟩

/-- Claim C2 (code bug): the string a composite's `get_data_hash`
feeds to `md5` is `","`-joined copies of the constant `"-"` — the
format call drops the child's hash and name — so it depends only on
the number of children: two single-child composites whose children
have the same name but different data hashes (or different schema
hashes, for `get_schema_hash`) produce identical digest inputs, and a
two-child composite always feeds `"-,-"`. -/
theorem md5_input_ignores_child_hashes :
    get_data_hash_md5_input [ChildNode.mk "x" "h1" "s1"] = "-"
    ∧ get_data_hash_md5_input [ChildNode.mk "x" "h1" "s1"]
        = get_data_hash_md5_input [ChildNode.mk "x" "h2" "s1"]
    ∧ get_data_hash_md5_input
        [ChildNode.mk "a" "h1" "s1", ChildNode.mk "b" "h2" "s2"] = "-,-"
    ∧ get_schema_hash_md5_input [ChildNode.mk "x" "h1" "s1"]
        = get_schema_hash_md5_input [ChildNode.mk "x" "h1" "s2"]
    ∧ ("h1" : String) ≠ "h2" :=
  ⟨rfl, rfl, rfl, rfl, by decide⟩

/-- The ten ASCII digit characters. -/
def digitChars : List Char :=
  ['0', '1', '2', '3', '4', '5', '6', '7', '8', '9']

/-- An ASCII whitespace character is neither a letter nor an identifier
tail character. -/
theorem pyIsSpace_not_ident {c : Char} (h : pyIsSpace c = true) :
    c.isAlpha = false ∧ isIdentTail c = false := by
  simp only [pyIsSpace, Bool.or_eq_true, beq_iff_eq] at h
  rcases h with ((((h | h) | h) | h) | h) | h <;> subst h <;> decide

/-- A SQL metacharacter is neither a letter nor an identifier tail
character, nor a newline. -/
theorem sqlMetaChar_not_ident {c : Char} (h : sqlMetaChar c = true) :
    c.isAlpha = false ∧ isIdentTail c = false ∧ c ≠ '\n' := by
  simp only [sqlMetaChar, Bool.or_eq_true, beq_iff_eq] at h
  rcases h with (h | h) | h <;> subst h <;>
    refine ⟨by decide, by decide, by decide⟩

/-- A list containing a character that is neither a letter nor an
identifier tail character cannot match the identifier core grammar. -/
theorem identCore_false_of_bad {l : List Char} {c : Char} (hmem : c ∈ l)
    (h1 : c.isAlpha = false) (h2 : isIdentTail c = false) :
    identCore l = false := by
  cases l with
  | nil => rfl
  | cons d ds =>
    rcases List.mem_cons.mp hmem with rfl | hm
    · simp [identCore, h1]
    · simp only [identCore, Bool.and_eq_false_iff]
      right
      exact List.all_eq_false.mpr ⟨c, hm, by simp [h2]⟩

/-- A string containing a non-newline character outside both identifier
character classes fails `IDENTIFIER_REGEX`: the character survives in
the core even after a trailing newline is stripped. -/
theorem regex_false_of_bad {s : String} {c : Char} (hmem : c ∈ s.data)
    (h1 : c.isAlpha = false) (h2 : isIdentTail c = false) (h3 : c ≠ '\n') :
    IDENTIFIER_REGEX s = false := by
  have hcore : identCore s.data = false := identCore_false_of_bad hmem h1 h2
  simp only [IDENTIFIER_REGEX, hcore, Bool.false_or, Bool.and_eq_false_iff]
  by_cases hlast : s.data.getLast? = Option.some '\n'
  · right
    have hne : s.data ≠ [] := by
      intro hnil
      rw [hnil] at hlast
      exact Option.noConfusion hlast
    have hsplit := List.dropLast_append_getLast hne
    have hlast2 : s.data.getLast hne = '\n' := by
      have := List.getLast?_eq_getLast s.data hne
      rw [hlast] at this
      exact (Option.some.injEq _ _).mp this.symm
    have hmem2 : c ∈ s.data.dropLast := by
      have hm := hmem
      rw [← hsplit] at hm
      rcases List.mem_append.mp hm with h | h
      · exact h
      · exfalso
        have hc : c = s.data.getLast hne := List.mem_singleton.mp h
        rw [hc] at h3
        exact h3 hlast2
    exact identCore_false_of_bad hmem2 h1 h2
  · left
    simp [beq_iff_eq, hlast]

/-- A string whose first character is not a letter fails
`IDENTIFIER_REGEX`, trailing newline or not. -/
theorem regex_false_of_head_not_alpha {s : String} {c : Char}
    {cs : List Char} (hd : s.data = c :: cs) (h1 : c.isAlpha = false) :
    IDENTIFIER_REGEX s = false := by
  simp only [IDENTIFIER_REGEX, hd, Bool.or_eq_false_iff, Bool.and_eq_false_iff]
  constructor
  · simp [identCore, h1]
  · right
    cases cs with
    | nil => rfl
    | cons d ds =>
      have hdl : (c :: d :: ds).dropLast = c :: (d :: ds).dropLast := rfl
      rw [hdl]
      simp [identCore, h1]

/-- Claim C4 (counterexample): the string `"ab\n"` contains whitespace
yet `check_identifier` returns it unchanged — Python's `$` anchor also
matches just before a single newline at the end of the string, so the
regex accepts a valid identifier followed by one trailing newline. -/
theorem check_identifier_trailing_newline_accepted :
    ("ab\n".data.any pyIsSpace = true)
    ∧ check_identifier "ab\n" = Except.ok "ab\n" :=
  ⟨by decide, rfl⟩

/-- Claim C4 (amended): every string matching
`[A-Za-z][-_A-Za-z0-9$]*` exactly is returned unchanged; every string
containing non-newline whitespace or a SQL metacharacter fails, as does
every string starting with a digit; a string containing a newline is
accepted exactly when it is a grammar-matching identifier followed by
one trailing newline (which Python's `$` anchor tolerates), in which
case it too is returned unchanged. -/
theorem check_identifier_amended :
    (∀ s : String, identCore s.data = true → check_identifier s = Except.ok s)
    ∧ (∀ (s : String) (c : Char), c ∈ s.data → pyIsSpace c = true →
        c ≠ '\n' →
        check_identifier s = Except.error (Err.invalidIdentifier s))
    ∧ (∀ (s : String) (c : Char), c ∈ s.data → sqlMetaChar c = true →
        check_identifier s = Except.error (Err.invalidIdentifier s))
    ∧ (∀ (s : String) (c : Char) (cs : List Char), s.data = c :: cs →
        c ∈ digitChars →
        check_identifier s = Except.error (Err.invalidIdentifier s))
    ∧ (∀ s : String, '\n' ∈ s.data →
        (check_identifier s = Except.ok s ↔
          s.data.getLast? = Option.some '\n'
            ∧ identCore s.data.dropLast = true)) := by
  refine ⟨?_, ?_, ?_, ?_, ?_⟩
  · intro s h
    simp [check_identifier, IDENTIFIER_REGEX, h]
  · intro s c hmem hsp hnl
    rcases pyIsSpace_not_ident hsp with ⟨h1, h2⟩
    simp [check_identifier, regex_false_of_bad hmem h1 h2 hnl]
  · intro s c hmem hmeta
    rcases sqlMetaChar_not_ident hmeta with ⟨h1, h2, h3⟩
    simp [check_identifier, regex_false_of_bad hmem h1 h2 h3]
  · intro s c cs hd hdig
    have h1 : c.isAlpha = false := by
      fin_cases hdig <;> decide
    simp [check_identifier, regex_false_of_head_not_alpha hd h1]
  · intro s hmem
    have hcore : identCore s.data = false :=
      identCore_false_of_bad hmem (by decide) (by decide)
    constructor
    · intro h
      by_cases hr : IDENTIFIER_REGEX s = true
      · simp only [IDENTIFIER_REGEX, hcore, Bool.false_or, Bool.and_eq_true,
          beq_iff_eq] at hr
        exact hr
      · have hr' : IDENTIFIER_REGEX s = false := by
          revert hr
          cases IDENTIFIER_REGEX s <;> simp
        simp [check_identifier, hr'] at h
    · rintro ⟨h1, h2⟩
      simp [check_identifier, IDENTIFIER_REGEX, h1, h2]

/-- Claim C4 (witness): the amended theorem applied at concrete
inputs — a valid identifier, an inner space, a semicolon, a digit
start, and the trailing-newline acceptance. -/
theorem check_identifier_amended_witness :
    check_identifier "abc" = Except.ok "abc"
    ∧ check_identifier "a b" = Except.error (Err.invalidIdentifier "a b")
    ∧ check_identifier "a;b" = Except.error (Err.invalidIdentifier "a;b")
    ∧ check_identifier "1ab" = Except.error (Err.invalidIdentifier "1ab")
    ∧ check_identifier "ab\n" = Except.ok "ab\n" :=
  ⟨check_identifier_amended.1 "abc" (by decide),
   check_identifier_amended.2.1 "a b" ' ' (by decide) (by decide) (by decide),
   check_identifier_amended.2.2.1 "a;b" ';' (by decide) (by decide),
   check_identifier_amended.2.2.2.1 "1ab" '1' ['a', 'b'] (by decide)
     (by decide),
   (check_identifier_amended.2.2.2.2 "ab\n" (by decide)).mpr
     ⟨by decide, by decide⟩⟩

/-- Claim C3 (code bug): `get_pks` does implement the claimed
resolution order — primary index first, then type-`"p"` constraint,
then the full column list — but `Table.__init__` does not use it: a
table constructed with no primary index and no type-`"p"` constraint
gets `pks = None`, not the full column list. -/
theorem table_pks_fallback_divergence :
    Table_pks [] [] = Option.none
    ∧ (∀ cols, get_pks [] [] cols = Pks.fullRow cols)
    ∧ get_pks [IndexDesc.mk "i" true ["id"] ["id"]]
        [ConstraintDesc.mk "c" "p" ["cid"] "i"] [ColumnDesc.mk "a"]
        = Pks.fromMeta ["id"]
    ∧ get_pks [] [ConstraintDesc.mk "c" "p" ["cid"] "i"] [ColumnDesc.mk "a"]
        = Pks.fromMeta ["cid"] :=
  ⟨rfl, fun _ => rfl, rfl, rfl⟩

/-- The count of a child list is the sum of the children's counts. -/
theorem get_count_list_eq_sum (cs : List CNode) :
    get_count_list cs = (cs.map get_count).sum := by
  induction cs with
  | nil => rfl
  | cons c rest ih => simp [get_count_list, ih]

mutual

/-- Every node's count is the sum of the counts of all leaves below
it. -/
theorem get_count_eq_leafCounts_sum : ∀ n, get_count n = (leafCounts n).sum
  | CNode.leaf nm k => by simp [get_count, leafCounts]
  | CNode.comp nm cs => by
    rw [show get_count (CNode.comp nm cs) = get_count_list cs from rfl,
      show leafCounts (CNode.comp nm cs) = leafCountsList cs from rfl]
    exact get_count_list_eq_leafCounts_sum cs

/-- The count of a node list is the sum of the counts of all leaves
below it. -/
theorem get_count_list_eq_leafCounts_sum :
    ∀ l, get_count_list l = (leafCountsList l).sum
  | [] => rfl
  | c :: rest => by
    rw [show get_count_list (c :: rest)
        = get_count c + get_count_list rest from rfl,
      show leafCountsList (c :: rest)
        = leafCounts c ++ leafCountsList rest from rfl,
      List.sum_append, get_count_eq_leafCounts_sum c,
      get_count_list_eq_leafCounts_sum rest]

end

/-- Claim C8: a composite's `get_count` is the sum of its children's
counts, is invariant under any permutation of the children (so it
cannot depend on the completion order of the concurrent child
computations), and transitively equals the sum of all leaf counts. -/
theorem composite_count_is_child_sum :
    (∀ (nm : String) (cs : List CNode),
      get_count (CNode.comp nm cs) = (cs.map get_count).sum)
    ∧ (∀ (nm : String) (cs cs' : List CNode), List.Perm cs cs' →
      get_count (CNode.comp nm cs) = get_count (CNode.comp nm cs'))
    ∧ (∀ n : CNode, get_count n = (leafCounts n).sum) := by
  refine ⟨?_, ?_, get_count_eq_leafCounts_sum⟩
  · intro nm cs
    exact get_count_list_eq_sum cs
  · intro nm cs cs' hperm
    rw [show get_count (CNode.comp nm cs) = get_count_list cs from rfl,
      show get_count (CNode.comp nm cs') = get_count_list cs' from rfl,
      get_count_list_eq_sum, get_count_list_eq_sum]
    exact List.Perm.sum_eq (hperm.map get_count)

/-- Claim C8 (witness): the permutation invariance applied to a
two-child composite with its children swapped. -/
theorem composite_count_is_child_sum_witness :
    get_count (CNode.comp "db" [CNode.leaf "a" 3, CNode.leaf "b" 4])
      = get_count (CNode.comp "db" [CNode.leaf "b" 4, CNode.leaf "a" 3]) :=
  composite_count_is_child_sum.2.1 "db" _ _
    (List.Perm.swap (CNode.leaf "b" 4) (CNode.leaf "a" 3) [])

/-- One operator compilation only appends to the parameter list. -/
theorem compile_op_appends (field op : String) (v : PyVal) (args : List PyVal) :
    args <+: (compile_op field op v args).2 := by
  unfold compile_op
  split
  · exact List.prefix_rfl
  · split
    · exact List.prefix_rfl
    · dsimp only
      split
      · split
        · exact List.prefix_append _ _
        · exact List.prefix_append _ _
      · exact List.prefix_rfl

/-- The operator loop only appends to the parameter list. -/
theorem compile_ops_appends (field : String) (ops : List (String × PyVal)) :
    ∀ args : List PyVal, args <+: (compile_ops field ops args).2 := by
  induction ops with
  | nil => intro args; exact List.prefix_rfl
  | cons p rest ih =>
    intro args
    rcases p with ⟨op, v⟩
    have h1 := compile_op_appends field op v args
    unfold compile_ops
    split
    · next e args1 heq =>
      rw [heq] at h1
      exact h1
    · next c args1 heq =>
      rw [heq] at h1
      have h2 := ih args1
      split
      · next e args2 heq2 =>
        rw [heq2] at h2
        exact h1.trans h2
      · next cs args2 heq2 =>
        rw [heq2] at h2
        exact h1.trans h2

/-- One field compilation only appends to the parameter list. -/
theorem compile_field_appends (field : String) (ov : PyVal) (args : List PyVal) :
    args <+: (compile_field field ov args).2 := by
  unfold compile_field
  split
  · exact List.prefix_rfl
  · next ops heq =>
    have h1 := compile_ops_appends field ops args
    split
    · next e args1 heq1 =>
      rw [heq1] at h1
      exact h1
    · next clause args1 heq1 =>
      rw [heq1] at h1
      split <;> exact h1

/-- The field loop only appends to the parameter list. -/
theorem compile_fields_appends (kvs : List (String × PyVal)) :
    ∀ args : List PyVal, args <+: (compile_fields kvs args).2 := by
  induction kvs with
  | nil => intro args; exact List.prefix_rfl
  | cons p rest ih =>
    intro args
    rcases p with ⟨field, ov⟩
    have h1 := compile_field_appends field ov args
    unfold compile_fields
    split
    · next e args1 heq =>
      rw [heq] at h1
      exact h1
    · next c args1 heq =>
      rw [heq] at h1
      have h2 := ih args1
      split
      · next e args2 heq2 =>
        rw [heq2] at h2
        exact h1.trans h2
      · next cs args2 heq2 =>
        rw [heq2] at h2
        exact h1.trans h2

/-- Threading a sub-document list only appends to the parameter
list, provided the sub-compiler does. -/
theorem threadList_appends
    (rec : PyVal → List PyVal → Except Err String × List PyVal)
    (hrec : ∀ a args, args <+: (rec a args).2) (l : List PyVal) :
    ∀ args : List PyVal, args <+: (threadList rec l args).2 := by
  induction l with
  | nil => intro args; exact List.prefix_rfl
  | cons a rest ih =>
    intro args
    have h1 := hrec a args
    unfold threadList
    split
    · next e args1 heq =>
      rw [heq] at h1
      exact h1
    · next s args1 heq =>
      rw [heq] at h1
      have h2 := ih args1
      split
      · next e args2 heq2 =>
        rw [heq2] at h2
        exact h1.trans h2
      · next ss args2 heq2 =>
        rw [heq2] at h2
        exact h1.trans h2

/-- One compiler layer only appends to the parameter list, provided
the recursive compiler does. -/
theorem whereStep_appends
    (rec : PyVal → List PyVal → Except Err String × List PyVal)
    (hrec : ∀ a args, args <+: (rec a args).2) (w : PyVal)
    (args : List PyVal) : args <+: (whereStep rec w args).2 := by
  unfold whereStep
  split
  · next kvs =>
    split
    · split
      · next l hl =>
        have h1 := threadList_appends rec hrec l args
        split
        · next e args1 heq =>
          rw [heq] at h1
          exact h1
        · next ss args1 heq =>
          rw [heq] at h1
          exact h1
      · exact List.prefix_rfl
    · split
      · split
        · next l hl =>
          have h1 := threadList_appends rec hrec l args
          split
          · next e args1 heq =>
            rw [heq] at h1
            exact h1
          · next ss args1 heq =>
            rw [heq] at h1
            exact h1
        · exact List.prefix_rfl
      · split
        · have h1 := hrec ((pyGet kvs ".not").getD PyVal.none) args
          split
          · next e args1 heq =>
            rw [heq] at h1
            exact h1
          · next s args1 heq =>
            rw [heq] at h1
            exact h1
        · have h1 := compile_fields_appends kvs args
          split
          · next e args1 heq =>
            rw [heq] at h1
            exact h1
          · next clauses args1 heq =>
            rw [heq] at h1
            split <;> exact h1
  · exact List.prefix_rfl

/-- The fueled compiler only appends to the parameter list. -/
theorem whereGo_appends :
    ∀ (fuel : Nat) (w : PyVal) (args : List PyVal),
      args <+: (whereGo fuel w args).2 := by
  intro fuel
  induction fuel with
  | zero => intro w args; exact List.prefix_rfl
  | succ f ih => intro w args; exact whereStep_appends (whereGo f) ih w args

/-- Claim C10: for every filter document and every pre-seeded
parameter list, `where_clause` mutates the list only by appending: the
original elements remain, unchanged and in order, as a prefix of the
final list — also when compilation fails partway through. -/
theorem where_clause_appends_only (w : PyVal) (args : List PyVal) :
    args <+: (where_clause w args).2 :=
  whereStep_appends (whereGo (pySize w)) (whereGo_appends (pySize w)) w args

/-- Every embedded value has positive size. -/
theorem pySize_pos (w : PyVal) : 1 ≤ pySize w := by
  cases w <;> simp [pySize]

/-- A value found in a dict is strictly smaller than the dict. -/
theorem pyGet_size {kvs : List (String × PyVal)} {k : String} {v : PyVal}
    (h : pyGet kvs k = Option.some v) :
    pySize v < pySize (PyVal.dict kvs) := by
  have hle : pySize v ≤ pySizePairs kvs := by
    induction kvs with
    | nil => exact absurd h (by simp [pyGet])
    | cons p rest ih =>
      rcases p with ⟨k', v'⟩
      rw [pyGet] at h
      by_cases hk : (k' == k) = true
      · rw [if_pos hk] at h
        have : v' = v := by
          exact (Option.some.injEq _ _).mp h
        subst this
        simp [pySizePairs]
        omega
      · rw [if_neg hk] at h
        have := ih h
        simp [pySizePairs]
        omega
  simp [pySize]
  omega

/-- A list member's size is bounded by the list size. -/
theorem mem_pySizeList {a : PyVal} {l : List PyVal} (h : a ∈ l) :
    pySize a ≤ pySizeList l := by
  induction l with
  | nil => exact absurd h (List.not_mem_nil a)
  | cons b rest ih =>
    rcases List.mem_cons.mp h with rfl | hm
    · simp [pySizeList]
      omega
    · have := ih hm
      simp [pySizeList]
      omega

/-- Threading a sub-document list depends on the sub-compiler only
through its values on the list's members. -/
theorem threadList_congr
    {rec1 rec2 : PyVal → List PyVal → Except Err String × List PyVal}
    {l : List PyVal}
    (h : ∀ a ∈ l, ∀ args', rec1 a args' = rec2 a args') :
    ∀ args, threadList rec1 l args = threadList rec2 l args := by
  induction l with
  | nil => intro args; rfl
  | cons a rest ih =>
    intro args
    show threadList rec1 (a :: rest) args = threadList rec2 (a :: rest) args
    unfold threadList
    rw [h a (List.mem_cons_self a rest) args]
    rcases hres : rec2 a args with ⟨es, args1⟩
    cases es with
    | error e => rfl
    | ok s =>
      dsimp only
      rw [ih (fun b hb args' => h b (List.mem_cons_of_mem a hb) args') args1]

/-- One compiler layer depends on the recursive compiler only through
its values on strictly smaller documents. -/
theorem whereStep_congr
    {rec1 rec2 : PyVal → List PyVal → Except Err String × List PyVal}
    {w : PyVal}
    (h : ∀ a, pySize a < pySize w → ∀ args', rec1 a args' = rec2 a args') :
    ∀ args, whereStep rec1 w args = whereStep rec2 w args := by
  intro args
  cases w with
  | dict kvs =>
    have hsub : ∀ (key : String) (l : List PyVal),
        (pyGet kvs key).getD PyVal.none = PyVal.list l →
        ∀ a ∈ l, ∀ args', rec1 a args' = rec2 a args' := by
      intro key l hget a ha args'
      have hsome : pyGet kvs key = Option.some (PyVal.list l) := by
        cases hg : pyGet kvs key with
        | none => rw [hg] at hget; exact absurd hget (by simp)
        | some v => rw [hg] at hget; simp at hget; rw [hget]
      have h1 : pySize (PyVal.list l) < pySize (PyVal.dict kvs) :=
        pyGet_size hsome
      have h2 : pySize a ≤ pySizeList l := mem_pySizeList ha
      have h3 : pySize (PyVal.list l) = 1 + pySizeList l := by simp [pySize]
      exact h a (by omega) args'
    have hnot : ∀ v : PyVal,
        (pyGet kvs ".not").getD PyVal.none = v → v ≠ PyVal.none →
        ∀ args', rec1 v args' = rec2 v args' := by
      intro v hget hne args'
      have hsome : pyGet kvs ".not" = Option.some v := by
        cases hg : pyGet kvs ".not" with
        | none => rw [hg] at hget; simp at hget; exact absurd hget.symm hne
        | some u => rw [hg] at hget; simp at hget; rw [hget]
      exact h v (pyGet_size hsome) args'
    simp only [whereStep]
    split
    · split
      · next l hl =>
        rw [threadList_congr (hsub ".and" l hl) args]
      · rfl
    · split
      · split
        · next l hl =>
          rw [threadList_congr (hsub ".or" l hl) args]
        · rfl
      · split
        · next htr =>
          have hne : (pyGet kvs ".not").getD PyVal.none ≠ PyVal.none := by
            intro hh
            rw [hh] at htr
            exact absurd htr (by simp [truthy])
          rw [hnot _ rfl hne args]
        · rfl
  | str s => rfl
  | int n => rfl
  | bool b => rfl
  | none => rfl
  | list xs => rfl

/-- The fueled compiler does not depend on the exact fuel, as long as
the fuel is at least the document's size. -/
theorem whereGo_irrel :
    ∀ (f1 f2 : Nat) (w : PyVal) (args : List PyVal),
      pySize w ≤ f1 → pySize w ≤ f2 →
      whereGo f1 w args = whereGo f2 w args := by
  intro f1
  induction f1 with
  | zero =>
    intro f2 w args h1 h2
    exact absurd h1 (by have := pySize_pos w; omega)
  | succ f1' ih =>
    intro f2 w args h1 h2
    cases f2 with
    | zero => exact absurd h2 (by have := pySize_pos w; omega)
    | succ f2' =>
      show whereStep (whereGo f1') w args = whereStep (whereGo f2') w args
      apply whereStep_congr
      intro a ha args'
      exact ih f2' a args' (by omega) (by omega)

/-- Claim C9 (counterexample): a document with both an `.and`
combinator and the plain field key `"b"` at the same level compiles
successfully — the `"b"` constraint is silently dropped and no error
of any kind is raised, contradicting the claimed rejection with
`AmbiguousFilterError` (which does not exist in the code). -/
theorem where_clause_combinator_field_coexist_compiles :
    where_clause (PyVal.dict [(".and", PyVal.list [PyVal.dict [("a", PyVal.int 1)]]),
        ("b", PyVal.int 2)]) []
      = (Except.ok "(\"a\" = $1)", [PyVal.int 1]) := rfl

/-- Claim C9 (amended): whenever a document carries an `.and` key with
a truthy (non-empty) list payload, `where_clause` compiles exactly as
if the document contained only that `.and` entry: every plain field key
at the same level is silently ignored, not rejected. -/
theorem where_clause_ignores_fields_next_to_combinator :
    ∀ (kvs : List (String × PyVal)) (l : List PyVal) (args : List PyVal),
      pyGet kvs ".and" = Option.some (PyVal.list l) → l ≠ [] →
      where_clause (PyVal.dict kvs) args
        = where_clause (PyVal.dict [(".and", PyVal.list l)]) args := by
  intro kvs l args h hne
  have htr : truthy (PyVal.list l) = true := by
    cases l with
    | nil => exact absurd rfl hne
    | cons a r => rfl
  have hA : (pyGet kvs ".and").getD PyVal.none = PyVal.list l := by
    rw [h]
    rfl
  have hcong : ∀ a ∈ l, ∀ args',
      whereGo (pySize (PyVal.dict kvs)) a args'
        = whereGo (pySize (PyVal.dict [(".and", PyVal.list l)])) a args' := by
    intro a ha args'
    have h1 : pySize (PyVal.list l) < pySize (PyVal.dict kvs) := pyGet_size h
    have h2 : pySize a ≤ pySizeList l := mem_pySizeList ha
    have h3 : pySize (PyVal.list l) = 1 + pySizeList l := by simp [pySize]
    have h4 : pySize (PyVal.dict [(".and", PyVal.list l)])
        = 2 + pySize (PyVal.list l) := by
      simp [pySize, pySizePairs]
      omega
    exact whereGo_irrel _ _ a args' (by omega) (by omega)
  have hA2 : (pyGet [(".and", PyVal.list l)] ".and").getD PyVal.none
      = PyVal.list l := rfl
  unfold where_clause
  simp only [whereStep, hA, hA2, htr, if_true]
  rw [threadList_congr hcong args]

/-- Claim C9 (amended, witness): the amended theorem applied to the
counterexample document. -/
theorem where_clause_ignores_fields_next_to_combinator_witness :
    where_clause (PyVal.dict [(".and", PyVal.list [PyVal.dict [("a", PyVal.int 1)]]),
        ("b", PyVal.int 2)]) []
      = where_clause (PyVal.dict
          [(".and", PyVal.list [PyVal.dict [("a", PyVal.int 1)]])]) [] :=
  where_clause_ignores_fields_next_to_combinator _ _ _ rfl (by simp)

/-- Operator compilation never reports fuel exhaustion. -/
theorem compile_op_no_fuel (field op : String) (v : PyVal)
    (args : List PyVal) :
    (compile_op field op v args).1 ≠ Except.error Err.outOfFuel := by
  unfold compile_op
  split
  · simp
  · split
    · next e heq =>
      have he : e = Err.noReplace := by
        split at heq
        · split at heq
          · exact absurd heq (by simp)
          · exact ((Except.error.injEq _ _).mp heq).symm
        · exact absurd heq (by simp)
      subst he
      simp
    · dsimp only
      simp

/-- The operator loop never reports fuel exhaustion. -/
theorem compile_ops_no_fuel (field : String) (ops : List (String × PyVal)) :
    ∀ args : List PyVal,
      (compile_ops field ops args).1 ≠ Except.error Err.outOfFuel := by
  induction ops with
  | nil => intro args; simp [compile_ops]
  | cons p rest ih =>
    intro args
    rcases p with ⟨op, v⟩
    have h1 := compile_op_no_fuel field op v args
    unfold compile_ops
    split
    · next e args1 heq =>
      rw [heq] at h1
      simpa using h1
    · next c args1 heq =>
      have h2 := ih args1
      split
      · next e args2 heq2 =>
        rw [heq2] at h2
        simpa using h2
      · simp

/-- Field compilation never reports fuel exhaustion. -/
theorem compile_field_no_fuel (field : String) (ov : PyVal)
    (args : List PyVal) :
    (compile_field field ov args).1 ≠ Except.error Err.outOfFuel := by
  unfold compile_field
  split
  · next e heq =>
    have he : e = Err.invalidFilter := by
      split at heq
      · split at heq
        · exact ((Except.error.injEq _ _).mp heq).symm
        · exact absurd heq (by simp)
      · exact absurd heq (by simp)
    subst he
    simp
  · next ops heq =>
    have h1 := compile_ops_no_fuel field ops args
    split
    · next e args1 heq1 =>
      rw [heq1] at h1
      simpa using h1
    · next clause args1 heq1 =>
      split <;> simp

/-- The field loop never reports fuel exhaustion. -/
theorem compile_fields_no_fuel (kvs : List (String × PyVal)) :
    ∀ args : List PyVal,
      (compile_fields kvs args).1 ≠ Except.error Err.outOfFuel := by
  induction kvs with
  | nil => intro args; simp [compile_fields]
  | cons p rest ih =>
    intro args
    rcases p with ⟨field, ov⟩
    have h1 := compile_field_no_fuel field ov args
    unfold compile_fields
    split
    · next e args1 heq =>
      rw [heq] at h1
      simpa using h1
    · next c args1 heq =>
      have h2 := ih args1
      split
      · next e args2 heq2 =>
        rw [heq2] at h2
        simpa using h2
      · simp

/-- Threading a sub-document list never reports fuel exhaustion if
the sub-compiler does not. -/
theorem threadList_no_fuel
    {rec : PyVal → List PyVal → Except Err String × List PyVal}
    {l : List PyVal}
    (hrec : ∀ a ∈ l, ∀ args',
      (rec a args').1 ≠ Except.error Err.outOfFuel) :
    ∀ args : List PyVal,
      (threadList rec l args).1 ≠ Except.error Err.outOfFuel := by
  induction l with
  | nil => intro args; simp [threadList]
  | cons a rest ih =>
    intro args
    have h1 := hrec a (List.mem_cons_self a rest) args
    unfold threadList
    split
    · next e args1 heq =>
      rw [heq] at h1
      simpa using h1
    · next s args1 heq =>
      have h2 := ih (fun b hb args' => hrec b (List.mem_cons_of_mem a hb) args') args1
      split
      · next e args2 heq2 =>
        rw [heq2] at h2
        simpa using h2
      · simp

/-- One compiler layer never reports fuel exhaustion if the recursive
compiler does not on strictly smaller documents. -/
theorem whereStep_no_fuel
    {rec : PyVal → List PyVal → Except Err String × List PyVal}
    {w : PyVal}
    (hrec : ∀ a, pySize a < pySize w → ∀ args',
      (rec a args').1 ≠ Except.error Err.outOfFuel) (args : List PyVal) :
    (whereStep rec w args).1 ≠ Except.error Err.outOfFuel := by
  cases w with
  | dict kvs =>
    have hsub : ∀ (key : String) (l : List PyVal),
        (pyGet kvs key).getD PyVal.none = PyVal.list l →
        ∀ a ∈ l, ∀ args',
          (rec a args').1 ≠ Except.error Err.outOfFuel := by
      intro key l hget a ha args'
      have hsome : pyGet kvs key = Option.some (PyVal.list l) := by
        cases hg : pyGet kvs key with
        | none => rw [hg] at hget; exact absurd hget (by simp)
        | some v => rw [hg] at hget; simp at hget; rw [hget]
      have h1 : pySize (PyVal.list l) < pySize (PyVal.dict kvs) :=
        pyGet_size hsome
      have h2 : pySize a ≤ pySizeList l := mem_pySizeList ha
      have h3 : pySize (PyVal.list l) = 1 + pySizeList l := by simp [pySize]
      exact hrec a (by omega) args'
    simp only [whereStep]
    split
    · split
      · next l hl =>
        have h1 := threadList_no_fuel (hsub ".and" l hl) args
        split
        · next e args1 heq =>
          rw [heq] at h1
          simpa using h1
        · simp
      · simp
    · split
      · split
        · next l hl =>
          have h1 := threadList_no_fuel (hsub ".or" l hl) args
          split
          · next e args1 heq =>
            rw [heq] at h1
            simpa using h1
          · simp
        · simp
      · split
        · next htr =>
          have hne : (pyGet kvs ".not").getD PyVal.none ≠ PyVal.none := by
            intro hh
            rw [hh] at htr
            exact absurd htr (by simp [truthy])
          have hsome : pyGet kvs ".not"
              = Option.some ((pyGet kvs ".not").getD PyVal.none) := by
            cases hg : pyGet kvs ".not" with
            | none => rw [hg] at hne; exact absurd rfl hne
            | some v => rfl
          have h1 := hrec ((pyGet kvs ".not").getD PyVal.none)
            (pyGet_size hsome) args
          split
          · next e args1 heq =>
            rw [heq] at h1
            simpa using h1
          · simp
        · have h1 := compile_fields_no_fuel kvs args
          split
          · next e args1 heq =>
            rw [heq] at h1
            simpa using h1
          · next clauses args1 heq =>
            split <;> simp
  | str s => simp [whereStep]
  | int n => simp [whereStep]
  | bool b => simp [whereStep]
  | none => simp [whereStep]
  | list xs => simp [whereStep]

/-- With fuel at least the document size, the fueled compiler never
reports fuel exhaustion. -/
theorem whereGo_no_fuel :
    ∀ (fuel : Nat) (w : PyVal) (args : List PyVal), pySize w ≤ fuel →
      (whereGo fuel w args).1 ≠ Except.error Err.outOfFuel := by
  intro fuel
  induction fuel with
  | zero =>
    intro w args h
    exact absurd h (by have := pySize_pos w; omega)
  | succ f ih =>
    intro w args h
    show (whereStep (whereGo f) w args).1 ≠ Except.error Err.outOfFuel
    exact whereStep_no_fuel
      (fun a ha args' => ih a args' (by omega)) args

/-- The recursion bound chosen by `where_clause` is sufficient: the
`outOfFuel` outcome of the embedding is unreachable, so `where_clause`
is a total model of the Python function. -/
theorem where_clause_no_fuel_error (w : PyVal) (args : List PyVal) :
    (where_clause w args).1 ≠ Except.error Err.outOfFuel :=
  whereStep_no_fuel
    (fun a ha args' => whereGo_no_fuel (pySize w) a args' (by omega)) args

end Apg
